import Mathlib

/-!
Verification of the OpenChamber repository: the GitHub remote-URL parser and
the tracked-repos store are embedded directly from the TypeScript source;
the terminal-input WebSocket protocol core is present in the repository only
as a design note (no implementation ships in the sources), so its components
are modelled from the specification text and verified against the spec's
stated properties.
-/

namespace OpenChamber

/-- Whitespace recognised by JavaScript regular-expression class backslash-s
and by String.prototype.trim: tab, line feed, vertical tab, form feed,
carriage return, space, no-break space, Ogham space mark, the en-quad
through hair-space range, line separator, paragraph separator, narrow
no-break space, medium mathematical space, ideographic space and BOM. -/
def isJsSpace (c : Char) : Bool :=
  c.toNat = 9 || c.toNat = 10 || c.toNat = 11 || c.toNat = 12 || c.toNat = 13 ||
  c.toNat = 32 || c.toNat = 160 || c.toNat = 5760 ||
  (8192 ≤ c.toNat && c.toNat ≤ 8202) ||
  c.toNat = 8232 || c.toNat = 8233 || c.toNat = 8239 || c.toNat = 8287 ||
  c.toNat = 12288 || c.toNat = 65279

/-- JavaScript String.prototype.trim: drop leading and trailing whitespace. -/
def jsTrim (s : String) : String :=
  String.mk (((s.data.dropWhile isJsSpace).reverse.dropWhile isJsSpace).reverse)

/-- Case-insensitive literal-prefix matcher for an all-lowercase ASCII
pattern, mirroring how a JavaScript case-insensitive regex matches the
literal parts of the patterns in part_004 (ECMAScript canonicalisation
never lets a non-ASCII character match an ASCII pattern character). -/
def stripPrefixCi : List Char → List Char → Option (List Char)
  | [], cs => some cs
  | _ :: _, [] => none
  | p :: ps, c :: cs => if c.toLower = p then stripPrefixCi ps cs else none

/-- The repo segment of the part_004 regexes: the lazy group of characters
that are neither a slash nor whitespace, followed by an optional
case-insensitive literal ".git" suffix and the end anchor.  Laziness means
the ".git" suffix is dropped exactly when the segment is longer than four
characters and ends (case-insensitively) in ".git". -/
def repoSegment (tail : List Char) : Option String :=
  if tail.isEmpty then none
  else if tail.any (fun c => c == '/' || isJsSpace c) then none
  else if 4 < tail.length ∧ (tail.drop (tail.length - 4)).map Char.toLower = ['.', 'g', 'i', 't'] then
    some (String.mk (tail.take (tail.length - 4)))
  else some (String.mk tail)

/-- The owner-slash-repo part shared by the SSH and HTTPS regexes of
part_004: a greedy nonempty run of non-slash non-whitespace characters,
a slash, then the repo segment. -/
def ownerRepoSegs (cs : List Char) : Option (String × String) :=
  let ow := cs.takeWhile (fun c => c != '/')
  if ow.isEmpty then none
  else if ow.any isJsSpace then none
  else
    match cs.dropWhile (fun c => c != '/') with
    | '/' :: tail => (repoSegment tail).map (fun r => (String.mk ow, r))
    | _ => none

/-- Embedding of parseGitHubRemoteUrl from src/unnamed/part_004: reject the
empty string, trim, then try the SSH pattern and the HTTPS pattern (the
optional "s" of "https?" resolves to trying the longer scheme first). -/
def parseGitHubRemoteUrl (remoteUrl : String) : Option (String × String) :=
  if remoteUrl = "" then none
  else
    match stripPrefixCi "git@github.com:".data (jsTrim remoteUrl).data with
    | some rest => ownerRepoSegs rest
    | none =>
      match stripPrefixCi "https://github.com/".data (jsTrim remoteUrl).data with
      | some rest => ownerRepoSegs rest
      | none =>
        match stripPrefixCi "http://github.com/".data (jsTrim remoteUrl).data with
        | some rest => ownerRepoSegs rest
        | none => none

/-- The SSH pattern of part_004 matches the (trimmed) input: the
case-insensitive "git@github.com:" prefix followed by a full
owner-slash-repo match. -/
def sshMatches (u : String) : Bool :=
  match stripPrefixCi "git@github.com:".data (jsTrim u).data with
  | some rest => (ownerRepoSegs rest).isSome
  | none => false

/-- The HTTPS pattern of part_004 matches the (trimmed) input: the
case-insensitive "https://github.com/" or "http://github.com/" prefix
followed by a full owner-slash-repo match. -/
def httpsMatches (u : String) : Bool :=
  match stripPrefixCi "https://github.com/".data (jsTrim u).data with
  | some rest => (ownerRepoSegs rest).isSome
  | none =>
    match stripPrefixCi "http://github.com/".data (jsTrim u).data with
    | some rest => (ownerRepoSegs rest).isSome
    | none => false

/-- A tracked repository entry of the GitHub repos store (src/unnamed/part_006). -/
structure TrackedRepo where
  owner : String
  repo : String
  addedAt : Nat
deriving DecidableEq, Repr

/-- Embedding of useGitHubReposStore.isTracked: an entry with exactly the
given owner and repo strings exists. -/
def isTracked (ts : List TrackedRepo) (o r : String) : Bool :=
  ts.any (fun t => t.owner == o && t.repo == r)

/-- Embedding of useGitHubReposStore.addRepo: a no-op when the raw pair is
already tracked, otherwise appends an entry with trimmed owner and repo. -/
def addRepo (ts : List TrackedRepo) (o r : String) (now : Nat) : List TrackedRepo :=
  if isTracked ts o r then ts
  else ts ++ [⟨jsTrim o, jsTrim r, now⟩]

/-- Embedding of useGitHubReposStore.removeRepo: keep entries that do not
match the owner-repo pair exactly. -/
def removeRepo (ts : List TrackedRepo) (o r : String) : List TrackedRepo :=
  ts.filter (fun t => !(t.owner == o && t.repo == r))

/-- One store mutation: an addRepo call (with the Date.now timestamp made
explicit) or a removeRepo call. -/
inductive RepoCall where
  | add (o r : String) (t : Nat)
  | remove (o r : String)

/-- Apply one store mutation. -/
def applyRepoCall (ts : List TrackedRepo) : RepoCall → List TrackedRepo
  | .add o r t => addRepo ts o r t
  | .remove o r => removeRepo ts o r

/-- Run a sequence of store mutations from the initial empty store. -/
def runRepoCalls (cs : List RepoCall) : List TrackedRepo :=
  cs.foldl applyRepoCall []

/-- The owner-repo pairs of the store entries, in order. -/
def repoPairs (ts : List TrackedRepo) : List (String × String) :=
  ts.map (fun t => (t.owner, t.repo))

/-- Characters admissible inside the owner or repo segment of the part_004
regexes: neither a slash nor JavaScript whitespace. -/
def isSegChar (c : Char) : Bool :=
  !(c == '/') && !(isJsSpace c)

/-- Arguments of a store call that are unchanged by trimming. -/
def trimmedArgs : RepoCall → Prop
  | .add o r _ => jsTrim o = o ∧ jsTrim r = r
  | .remove _ _ => True

/-- Modelled from the spec: control frames carry a UTF-8 JSON payload, so the
codec needs UTF-8 encoding of a character as bytes (here Nat values below 256). -/
def utf8EncodeChar (c : Char) : List Nat :=
  let n := c.toNat
  if n < 128 then [n]
  else if n < 2048 then [192 + n / 64, 128 + n % 64]
  else if n < 65536 then [224 + n / 4096, 128 + (n / 64) % 64, 128 + n % 64]
  else [240 + n / 262144, 128 + (n / 4096) % 64, 128 + (n / 64) % 64, 128 + n % 64]

/-- Modelled from the spec: UTF-8 encoding of a character sequence. -/
def utf8Encode : List Char → List Nat
  | [] => []
  | c :: cs => utf8EncodeChar c ++ utf8Encode cs

/-- A UTF-8 continuation byte. -/
def isContByte (b : Nat) : Bool := 128 ≤ b && b < 192

/-- Modelled from the spec: strict UTF-8 decoding of a byte list, rejecting
truncated sequences, stray continuation bytes, overlong encodings, surrogate
code points and values beyond the Unicode range (the frame codec must detect
invalid UTF-8 payloads).  The fuel argument only bounds the number of decoded
characters; since every character consumes at least one byte, fuel equal to
the byte count never cuts a decode short. -/
def utf8DecodeAux : Nat → List Nat → Option (List Char)
  | _, [] => some []
  | 0, _ :: _ => none
  | fuel + 1, b :: rest =>
    if b < 128 then (utf8DecodeAux fuel rest).map (fun cs => Char.ofNat b :: cs)
    else if b < 194 then none
    else if b < 224 then
      match rest with
      | b2 :: r =>
        if isContByte b2 then
          (utf8DecodeAux fuel r).map (fun cs => Char.ofNat ((b - 192) * 64 + (b2 - 128)) :: cs)
        else none
      | [] => none
    else if b < 240 then
      match rest with
      | b2 :: b3 :: r =>
        if isContByte b2 && isContByte b3 then
          if 2048 ≤ (b - 224) * 4096 + (b2 - 128) * 64 + (b3 - 128) ∧
              ¬(55296 ≤ (b - 224) * 4096 + (b2 - 128) * 64 + (b3 - 128) ∧
                (b - 224) * 4096 + (b2 - 128) * 64 + (b3 - 128) < 57344) then
            (utf8DecodeAux fuel r).map
              (fun cs => Char.ofNat ((b - 224) * 4096 + (b2 - 128) * 64 + (b3 - 128)) :: cs)
          else none
        else none
      | _ => none
    else if b < 245 then
      match rest with
      | b2 :: b3 :: b4 :: r =>
        if isContByte b2 && isContByte b3 && isContByte b4 then
          if 65536 ≤ (b - 240) * 262144 + (b2 - 128) * 4096 + (b3 - 128) * 64 + (b4 - 128) ∧
              (b - 240) * 262144 + (b2 - 128) * 4096 + (b3 - 128) * 64 + (b4 - 128) < 1114112 then
            (utf8DecodeAux fuel r).map
              (fun cs => Char.ofNat
                ((b - 240) * 262144 + (b2 - 128) * 4096 + (b3 - 128) * 64 + (b4 - 128)) :: cs)
          else none
        else none
      | _ => none
    else none

/-- Modelled from the spec: UTF-8 decoding of a byte list. -/
def utf8Decode (bytes : List Nat) : Option (List Char) :=
  utf8DecodeAux bytes.length bytes

/-- A JSON value of the flat shape used by the protocol's control messages:
strings, nonnegative integers and booleans. -/
inductive JVal where
  | str (s : String)
  | num (n : Nat)
  | bool (b : Bool)
deriving DecidableEq, Repr

/-- Lowercase hexadecimal digit for a value below 16. -/
def hexDigitChar (n : Nat) : Char :=
  "0123456789abcdef".data.getD n '0'

/-- Value of a hexadecimal digit character. -/
def hexVal (c : Char) : Option Nat :=
  if '0' ≤ c ∧ c ≤ '9' then some (c.toNat - 48)
  else if 'a' ≤ c ∧ c ≤ 'f' then some (c.toNat - 87)
  else if 'A' ≤ c ∧ c ≤ 'F' then some (c.toNat - 55)
  else none

/-- Decimal digits of a positive number, least significant first. -/
def natDigitsRev : Nat → List Char
  | 0 => []
  | n + 1 => hexDigitChar ((n + 1) % 10) :: natDigitsRev ((n + 1) / 10)
decreasing_by exact Nat.div_lt_self (Nat.succ_pos n) (by omega)

/-- Decimal rendering of a nonnegative integer, as JSON.stringify writes it. -/
def natToChars (n : Nat) : List Char :=
  if n = 0 then ['0'] else (natDigitsRev n).reverse

/-- Value of a big-endian decimal digit string. -/
def digitsVal (ds : List Char) : Nat :=
  ds.foldl (fun a c => a * 10 + (c.toNat - 48)) 0

/-- Parse a maximal nonempty run of decimal digits. -/
def parseNatChars (cs : List Char) : Option (Nat × List Char) :=
  if (cs.takeWhile Char.isDigit).isEmpty then none
  else some (digitsVal (cs.takeWhile Char.isDigit), cs.dropWhile Char.isDigit)

/-- Modelled from the spec: JSON string escaping of one character, as
JSON.stringify performs it (backslash escapes for quote, backslash and the
named control characters, unicode escapes for other control characters). -/
def escapeChar (c : Char) : List Char :=
  if c = '\"' then ['\\', '\"']
  else if c = '\\' then ['\\', '\\']
  else if c = '\n' then ['\\', 'n']
  else if c = '\r' then ['\\', 'r']
  else if c = '\t' then ['\\', 't']
  else if c = '\x08' then ['\\', 'b']
  else if c = '\x0c' then ['\\', 'f']
  else if c.toNat < 32 then
    ['\\', 'u', '0', '0', hexDigitChar (c.toNat / 16), hexDigitChar (c.toNat % 16)]
  else [c]

/-- JSON string escaping of a character sequence. -/
def escapeList : List Char → List Char
  | [] => []
  | c :: cs => escapeChar c ++ escapeList cs

/-- The character denoted by a single-character backslash escape. -/
def unescapeChar (e : Char) : Option Char :=
  if e = '\"' then some '\"'
  else if e = '\\' then some '\\'
  else if e = '/' then some '/'
  else if e = 'n' then some '\n'
  else if e = 'r' then some '\r'
  else if e = 't' then some '\t'
  else if e = 'b' then some '\x08'
  else if e = 'f' then some '\x0c'
  else none

/-- Modelled from the spec: JSON string-literal body parser (the opening
quote already consumed), returning the decoded characters and the input
after the closing quote; rejects unterminated literals, bad escapes, raw
control characters and escapes denoting invalid code points. -/
def parseStringBody : List Char → Option (List Char × List Char)
  | [] => none
  | c :: rest =>
    if c = '\"' then some ([], rest)
    else if c = '\\' then
      match rest with
      | [] => none
      | e :: rest2 =>
        if e = 'u' then
          match rest2 with
          | h1 :: h2 :: h3 :: h4 :: rest3 =>
            match hexVal h1, hexVal h2, hexVal h3, hexVal h4 with
            | some a, some b, some x, some d =>
              if ((a * 16 + b) * 16 + x) * 16 + d < 55296 ∨
                  (57343 < ((a * 16 + b) * 16 + x) * 16 + d ∧
                    ((a * 16 + b) * 16 + x) * 16 + d < 1114112) then
                (parseStringBody rest3).map
                  (fun p => (Char.ofNat (((a * 16 + b) * 16 + x) * 16 + d) :: p.1, p.2))
              else none
            | _, _, _, _ => none
          | _ => none
        else
          match unescapeChar e with
          | some d => (parseStringBody rest2).map (fun p => (d :: p.1, p.2))
          | none => none
    else if 32 ≤ c.toNat then (parseStringBody rest).map (fun p => (c :: p.1, p.2))
    else none

/-- Render a JSON value of the flat fragment. -/
def renderJVal : JVal → List Char
  | .str s => '\"' :: escapeList s.data ++ ['\"']
  | .num n => natToChars n
  | .bool true => ['t', 'r', 'u', 'e']
  | .bool false => ['f', 'a', 'l', 's', 'e']

/-- Modelled from the spec: parser for a JSON value of the flat fragment. -/
def parseJVal (cs : List Char) : Option (JVal × List Char) :=
  match cs with
  | [] => none
  | c :: rest =>
    if c = '\"' then (parseStringBody rest).map (fun p => (JVal.str (String.mk p.1), p.2))
    else if c.isDigit then (parseNatChars (c :: rest)).map (fun p => (JVal.num p.1, p.2))
    else if c = 't' then
      match rest with
      | 'r' :: 'u' :: 'e' :: rest2 => some (JVal.bool true, rest2)
      | _ => none
    else if c = 'f' then
      match rest with
      | 'a' :: 'l' :: 's' :: 'e' :: rest2 => some (JVal.bool false, rest2)
      | _ => none
    else none

/-- Render one object field: quoted key, colon, value. -/
def renderField (k : String) (v : JVal) : List Char :=
  '\"' :: escapeList k.data ++ '\"' :: ':' :: renderJVal v

/-- Render the comma-separated fields of an object. -/
def renderFieldsInner : List (String × JVal) → List Char
  | [] => []
  | [kv] => renderField kv.1 kv.2
  | kv :: fs => renderField kv.1 kv.2 ++ ',' :: renderFieldsInner fs

/-- Render a flat JSON object, without any whitespace, as JSON.stringify
writes it. -/
def renderObj (fs : List (String × JVal)) : List Char :=
  '\x7b' :: renderFieldsInner fs ++ ['\x7d']

/-- Modelled from the spec: parser loop for the fields of a flat JSON
object, fuelled by the number of fields still allowed. -/
def parseFieldsLoop : Nat → List Char → Option (List (String × JVal) × List Char)
  | 0, _ => none
  | fuel + 1, cs =>
    match cs with
    | '\"' :: rest =>
      match parseStringBody rest with
      | some (key, rest1) =>
        match rest1 with
        | ':' :: rest2 =>
          match parseJVal rest2 with
          | some (v, rest3) =>
            match rest3 with
            | ',' :: rest4 =>
              (parseFieldsLoop fuel rest4).map (fun p => ((String.mk key, v) :: p.1, p.2))
            | '\x7d' :: rest4 => some ([(String.mk key, v)], rest4)
            | _ => none
          | none => none
        | _ => none
      | none => none
    | _ => none

/-- Modelled from the spec: parser for a flat JSON object. -/
def parseObj (cs : List Char) : Option (List (String × JVal) × List Char) :=
  match cs with
  | '\x7b' :: rest =>
    match rest with
    | '\x7d' :: rest2 => some ([], rest2)
    | _ => parseFieldsLoop (rest.length + 1) rest
  | _ => none

/-- Modelled from the spec: the six control message shapes of the protocol:
bind request, keepalive ping, keepalive pong, server ready, bind
acknowledgement, and error with code and fatal flag. -/
inductive ControlMsg where
  | b (s : String) (v : Nat)
  | p (v : Nat)
  | po (v : Nat)
  | ok (v : Nat)
  | bok (v : Nat)
  | e (c : String) (f : Bool)
deriving DecidableEq, Repr

/-- Modelled from the spec: the JSON object fields of each control message,
in the order the design note writes them. -/
def msgFields : ControlMsg → List (String × JVal)
  | .b s v => [("t", .str "b"), ("s", .str s), ("v", .num v)]
  | .p v => [("t", .str "p"), ("v", .num v)]
  | .po v => [("t", .str "po"), ("v", .num v)]
  | .ok v => [("t", .str "ok"), ("v", .num v)]
  | .bok v => [("t", .str "bok"), ("v", .num v)]
  | .e c f => [("t", .str "e"), ("c", .str c), ("f", .bool f)]

/-- Look up a field of a flat JSON object (first occurrence). -/
def lookupField (fs : List (String × JVal)) (k : String) : Option JVal :=
  (fs.find? (fun q => q.1 == k)).map (fun q => q.2)

/-- Modelled from the spec: minimal schema validation of a decoded JSON
object as a control message: the type tag dispatches; a bind needs a
nonempty session id string and an integer version at least 1; the
keepalive and acknowledgement shapes need a version at least 1; an error
needs a string code and a boolean fatal flag; unknown or malformed type
tags are rejected, never forwarded. -/
def validateMsg (fs : List (String × JVal)) : Option ControlMsg :=
  match lookupField fs "t" with
  | some (.str "b") =>
    match lookupField fs "s", lookupField fs "v" with
    | some (.str s), some (.num v) => if s ≠ "" ∧ 1 ≤ v then some (.b s v) else none
    | _, _ => none
  | some (.str "p") =>
    match lookupField fs "v" with
    | some (.num v) => if 1 ≤ v then some (.p v) else none
    | _ => none
  | some (.str "po") =>
    match lookupField fs "v" with
    | some (.num v) => if 1 ≤ v then some (.po v) else none
    | _ => none
  | some (.str "ok") =>
    match lookupField fs "v" with
    | some (.num v) => if 1 ≤ v then some (.ok v) else none
    | _ => none
  | some (.str "bok") =>
    match lookupField fs "v" with
    | some (.num v) => if 1 ≤ v then some (.bok v) else none
    | _ => none
  | some (.str "e") =>
    match lookupField fs "c", lookupField fs "f" with
    | some (.str c), some (.bool f) => some (.e c f)
    | _, _ => none
  | _ => none

/-- Modelled from the spec: the JSON text of a control message. -/
def renderMsg (m : ControlMsg) : List Char :=
  renderObj (msgFields m)

/-- Modelled from the spec: parse JSON text and validate it as a control
message; trailing characters make the text invalid. -/
def parseMsg (cs : List Char) : Option ControlMsg :=
  match parseObj cs with
  | some (fs, []) => validateMsg fs
  | _ => none

/-- Modelled from the spec: the decode failures of the frame codec: unknown
tag byte, invalid UTF-8 payload, invalid JSON or schema-invalid message. -/
inductive DecodeErr where
  | badTag
  | badUtf8
  | badJson
deriving DecidableEq, Repr

/-- Modelled from the spec: encode a control message as a binary control
frame: tag byte 0x01 followed by the UTF-8 bytes of its JSON serialization. -/
def encodeControl (m : ControlMsg) : List Nat :=
  1 :: utf8Encode (renderMsg m)

/-- Modelled from the spec: decode a binary frame: byte 0 must be the tag
0x01, the remaining bytes are interpreted as UTF-8 text and parsed as JSON
into a control message; each failure is reported, never thrown. -/
def decodeControl (bytes : List Nat) : Except DecodeErr ControlMsg :=
  match bytes with
  | [] => .error .badTag
  | t :: rest =>
    if t = 1 then
      match utf8Decode rest with
      | none => .error .badUtf8
      | some cs =>
        match parseMsg cs with
        | some m => .ok m
        | none => .error .badJson
    else .error .badTag

/-- The schema requirements of each control message shape. -/
def shapeOK : ControlMsg → Prop
  | .b s v => s ≠ "" ∧ 1 ≤ v
  | .p v => 1 ≤ v
  | .po v => 1 ≤ v
  | .ok v => 1 ≤ v
  | .bok v => 1 ≤ v
  | .e _ _ => True

/-- Modelled from the spec: a WebSocket frame: text (raw keystroke payload,
the hot path) or binary (control envelope bytes). -/
inductive Frame where
  | text (payload : String)
  | binary (bytes : List Nat)
deriving DecidableEq, Repr

/-- Modelled from the spec: observable outputs of the server connection
handler: a control message sent to the client, a verbatim write to a
session's input sink, or closing the socket. -/
inductive SrvOut where
  | send (m : ControlMsg)
  | sinkWrite (sid : String) (payload : String)
  | close
deriving DecidableEq, Repr

/-- Modelled from the spec: per-socket server state: whether the socket has
been closed, the single mutable bound session id (exactly one value at a
time, no history), the last-activity timestamp, and the arrival times of
recent malformed frames for rate-limit accounting. -/
structure SockState where
  closed : Bool
  boundSessionId : Option String
  lastActivity : Nat
  rateEvents : List Nat
deriving DecidableEq, Repr

/-- Modelled from the spec: rate-limit policy constants (malformed-frame
threshold and sliding-window width); the design note fixes no values, so
they are parameters. -/
structure ServerCfg where
  rateLimit : Nat
  rateWindow : Nat

/-- A socket just after a successful authenticated upgrade: open, no bound
session, no malformed-frame history. -/
def initSock (now : Nat) : SockState :=
  ⟨false, none, now, []⟩

/-- Modelled from the spec: handling of a malformed or invalid binary
frame: prune rate events that fell out of the sliding window, record the
new one; below the threshold reply with a non-fatal bad_frame error, at
the threshold send a fatal rate_limited error and close the socket. -/
def malformedStep (cfg : ServerCfg) (st : SockState) (now : Nat) : SockState × List SrvOut :=
  let evs := st.rateEvents.filter (fun t0 => now ≤ t0 + cfg.rateWindow) ++ [now]
  if cfg.rateLimit ≤ evs.length then
    ({ st with closed := true, rateEvents := evs },
      [.send (.e "rate_limited" true), .close])
  else
    ({ st with rateEvents := evs }, [.send (.e "bad_frame" false)])

/-- Modelled from the spec: one step of the server connection handler on an
incoming frame.  A closed socket acts on nothing.  A text frame from an
unbound socket is dropped with a non-fatal unknown_session error; from a
bound socket it is written verbatim to the bound session's sink when the
session resolves, and dropped with a non-fatal unknown_session error when
it does not (the socket stays open so the client may rebind).  A binary
frame is decoded: a bind atomically replaces the bound session id (no
existence check) and is answered with bok; a ping updates the
last-activity timestamp and is answered with po; anything else, including
every decode failure, is handled by the rate limiter and never forwarded. -/
def step (cfg : ServerCfg) (live : String → Bool) (st : SockState) (fr : Frame) (now : Nat) :
    SockState × List SrvOut :=
  if st.closed then (st, [])
  else
    match fr with
    | .text payload =>
      match st.boundSessionId with
      | none => (st, [.send (.e "unknown_session" false)])
      | some sid =>
        if live sid then (st, [.sinkWrite sid payload])
        else (st, [.send (.e "unknown_session" false)])
    | .binary bytes =>
      match decodeControl bytes with
      | .ok (.b s _) => ({ st with boundSessionId := some s }, [.send (.bok 1)])
      | .ok (.p _) => ({ st with lastActivity := now }, [.send (.po 1)])
      | .ok _ => malformedStep cfg st now
      | .error _ => malformedStep cfg st now

/-- Modelled from the spec: process a socket's frame stream strictly in
arrival order (no reordering within one socket), accumulating outputs. -/
def runFrames (cfg : ServerCfg) (live : String → Bool) :
    SockState → List (Frame × Nat) → SockState × List SrvOut
  | st, [] => (st, [])
  | st, (fr, t) :: rest =>
    let r1 := step cfg live st fr t
    let r2 := runFrames cfg live r1.1 rest
    (r2.1, r1.2 ++ r2.2)

/-- A frame that decodes to a valid bind request. -/
def isBindFrame : Frame → Bool
  | .text _ => false
  | .binary bytes =>
    match decodeControl bytes with
    | .ok (.b _ _) => true
    | _ => false

/-- The encoded bind control frame for a session id. -/
def bindFrame (s : String) : Frame :=
  .binary (encodeControl (.b s 1))

/-- The encoded keepalive ping frame. -/
def pingFrame : Frame :=
  .binary (encodeControl (.p 1))

/-- Status of the client channel manager's shared socket: usable, or
unavailable (never connected, error event received, or closed). -/
inductive WsStatus where
  | connected
  | unavailable
deriving DecidableEq, Repr

/-- Modelled from the spec: client channel manager state: the shared
socket's status and the active terminal session id. -/
structure ClientState where
  ws : WsStatus
  activeSession : String
deriving DecidableEq, Repr

/-- A keystroke delivery action of the client: a WS text frame on the
shared socket, or one HTTP POST to the session's input endpoint. -/
inductive Delivery where
  | wsText (payload : String)
  | httpPost (sessionId : String) (payload : String)
deriving DecidableEq, Repr

/-- Modelled from the spec: keystroke delivery by the client channel
manager: a text frame over the shared socket when it is available,
otherwise one POST to the active session's input endpoint carrying the
identical raw payload (transparent fallback, no keystroke dropped). -/
def deliverKeystroke (st : ClientState) (d : String) : Delivery :=
  match st.ws with
  | .connected => .wsText d
  | .unavailable => .httpPost st.activeSession d

/-- The raw payload carried by a delivery action. -/
def deliveryPayload : Delivery → String
  | .wsText d => d
  | .httpPost _ d => d

theorem dropWhile_eq_self_of_all {p : Char → Bool} :
    ∀ l : List Char, (∀ c ∈ l, p c = false) → l.dropWhile p = l := by
  intro l h
  induction l with
  | nil => rfl
  | cons a l ih =>
    simp only [List.dropWhile_cons]
    rw [h a (by simp)]
    simp

theorem jsTrim_eq_self (s : String) (h : ∀ c ∈ s.data, isJsSpace c = false) :
    jsTrim s = s := by
  unfold jsTrim
  rw [dropWhile_eq_self_of_all s.data h]
  rw [dropWhile_eq_self_of_all s.data.reverse (by intro c hc; exact h c (List.mem_reverse.mp hc))]
  simp

theorem takeWhile_append_cons {p : Char → Bool} (l : List Char) (a : Char) (r : List Char)
    (hl : ∀ c ∈ l, p c = true) (ha : p a = false) :
    (l ++ a :: r).takeWhile p = l ∧ (l ++ a :: r).dropWhile p = a :: r := by
  induction l with
  | nil => simp [List.takeWhile_cons, List.dropWhile_cons, ha]
  | cons b l ih =>
    have hb : p b = true := hl b (by simp)
    have ihh := ih (fun c hc => hl c (by simp [hc]))
    simp only [List.cons_append, List.takeWhile_cons, List.dropWhile_cons, hb]
    simp [ihh.1, ihh.2]

theorem stripPrefixCi_append (pat rest : List Char) (h : ∀ c ∈ pat, c.toLower = c) :
    stripPrefixCi pat (pat ++ rest) = some rest := by
  induction pat with
  | nil => rfl
  | cons p ps ih =>
    simp only [List.cons_append, stripPrefixCi]
    rw [if_pos (h p (by simp))]
    exact ih (fun c hc => h c (by simp [hc]))

theorem isTracked_eq_false_not_mem {ts : List TrackedRepo} {o r : String}
    (h : isTracked ts o r = false) : (o, r) ∉ repoPairs ts := by
  intro hmem
  simp only [repoPairs, List.mem_map] at hmem
  obtain ⟨t, ht, hpair⟩ := hmem
  have h1 : t.owner = o := congrArg Prod.fst hpair
  have h2 : t.repo = r := congrArg Prod.snd hpair
  simp only [isTracked, List.any_eq_false] at h
  have := h t ht
  simp [h1, h2] at this

theorem repoPairs_nodup_applyRepoCall (ts : List TrackedRepo) (c : RepoCall)
    (hc : trimmedArgs c) (hn : (repoPairs ts).Nodup) :
    (repoPairs (applyRepoCall ts c)).Nodup := by
  cases c with
  | add o r t =>
    simp only [applyRepoCall, addRepo]
    by_cases htr : isTracked ts o r = true
    · rw [if_pos htr]; exact hn
    · rw [if_neg htr]
      have hfalse : isTracked ts o r = false := by
        cases h : isTracked ts o r
        · rfl
        · exact absurd h htr
      obtain ⟨ho, hr⟩ := hc
      have : repoPairs (ts ++ [⟨jsTrim o, jsTrim r, t⟩]) = repoPairs ts ++ [(o, r)] := by
        simp [repoPairs, ho, hr]
      rw [this]
      rw [List.nodup_append]
      refine ⟨hn, List.nodup_singleton _, ?_⟩
      intro x hx hx1
      simp only [List.mem_singleton] at hx1
      subst hx1
      exact isTracked_eq_false_not_mem hfalse hx
  | remove o r =>
    simp only [applyRepoCall, removeRepo]
    exact List.Nodup.sublist (List.Sublist.map _ (List.filter_sublist ts)) hn

theorem repoPairs_nodup_foldl (cs : List RepoCall) :
    ∀ ts, (∀ c ∈ cs, trimmedArgs c) → (repoPairs ts).Nodup →
      (repoPairs (cs.foldl applyRepoCall ts)).Nodup := by
  induction cs with
  | nil => intro ts _ hn; exact hn
  | cons c cs ih =>
    intro ts h hn
    simp only [List.foldl_cons]
    exact ih _ (fun d hd => h d (by simp [hd]))
      (repoPairs_nodup_applyRepoCall ts c (h c (by simp)) hn)

/-- C9 counterexample: starting from the empty store, adding with arguments
that trim to the same pair but differ in raw form produces two entries with
the same owner-repo pair, because addRepo checks isTracked against the raw
arguments while storing the trimmed ones. -/
theorem c9_trackedRepos_duplicate_counterexample :
    repoPairs (runRepoCalls [.add " a" "b" 0, .add "a " "b" 1]) = [("a", "b"), ("a", "b")] ∧
    ¬ (repoPairs (runRepoCalls [.add " a" "b" 0, .add "a " "b" 1])).Nodup := by
  constructor
  · decide
  · decide

/-- C9 amended: for every sequence of addRepo and removeRepo calls from the
empty store in which every addRepo argument is already trimmed (unchanged
by String.prototype.trim), the tracked list never holds two entries with
the same owner-repo pair; and addRepo with an already-tracked raw pair
always leaves the list unchanged. -/
theorem c9_trackedRepos_nodup_of_trimmed (cs : List RepoCall)
    (h : ∀ c ∈ cs, trimmedArgs c) :
    (repoPairs (runRepoCalls cs)).Nodup ∧
    (∀ ts o r now, isTracked ts o r = true → addRepo ts o r now = ts) := by
  constructor
  · exact repoPairs_nodup_foldl cs [] h (by simp [repoPairs])
  · intro ts o r now htr
    simp [addRepo, htr]

/-- C9 witness: the amended theorem applied to a concrete trimmed call
sequence and a concrete already-tracked addRepo call. -/
theorem c9_trackedRepos_nodup_witness :
    (repoPairs (runRepoCalls [.add "a" "b" 0, .add "c" "d" 1, .remove "a" "b"])).Nodup ∧
    addRepo [⟨"a", "b", 0⟩] "a" "b" 7 = [⟨"a", "b", 0⟩] := by
  have h := c9_trackedRepos_nodup_of_trimmed
    [.add "a" "b" 0, .add "c" "d" 1, .remove "a" "b"]
    (by intro c hc; fin_cases hc <;> first | exact ⟨by decide, by decide⟩ | trivial)
  exact ⟨h.1, h.2 [⟨"a", "b", 0⟩] "a" "b" 7 (by decide)⟩

theorem segChar_no_space {l : List Char} (h : l.all isSegChar = true) :
    ∀ c ∈ l, isJsSpace c = false := by
  intro c hc
  have := (List.all_eq_true.mp h) c hc
  simp only [isSegChar, Bool.and_eq_true, Bool.not_eq_true'] at this
  exact this.2

theorem segChar_no_slash {l : List Char} (h : l.all isSegChar = true) :
    ∀ c ∈ l, (c != '/') = true := by
  intro c hc
  have := (List.all_eq_true.mp h) c hc
  simp only [isSegChar, Bool.and_eq_true, Bool.not_eq_true'] at this
  simp [bne, this.1]

theorem ownerRepoSegs_split (o : String) (tail : List Char)
    (hne : o.data ≠ []) (hall : o.data.all isSegChar = true) :
    ownerRepoSegs (o.data ++ '/' :: tail) = (repoSegment tail).map (fun r => (o, r)) := by
  have hsplit := takeWhile_append_cons o.data '/' tail (segChar_no_slash hall) (by decide)
  have hsp : o.data.any isJsSpace = false :=
    List.any_eq_false.mpr (fun c hc => by simp [segChar_no_space hall c hc])
  unfold ownerRepoSegs
  rw [hsplit.1, hsplit.2]
  rw [if_neg (by simp [List.isEmpty_iff, hne]), if_neg (by simp [hsp])]
  rfl

theorem segChar_no_bad {l : List Char} (hall : l.all isSegChar = true) :
    ∀ c ∈ l, (c == '/' || isJsSpace c) = false := by
  intro c hc
  have h1 := segChar_no_slash hall c hc
  have h2 := segChar_no_space hall c hc
  simp only [bne, Bool.not_eq_true'] at h1
  simp [h1, h2]

theorem repoSegment_append_git (r : String)
    (hne : r.data ≠ []) (hall : r.data.all isSegChar = true) :
    repoSegment (r.data ++ ['.', 'g', 'i', 't']) = some r := by
  have hlen : (r.data ++ ['.', 'g', 'i', 't']).length = r.data.length + 4 := by
    simp
  have hlen4 : (r.data ++ ['.', 'g', 'i', 't']).length - 4 = r.data.length := by
    rw [hlen]
    omega
  have hbad : (r.data ++ ['.', 'g', 'i', 't']).any (fun c => c == '/' || isJsSpace c) = false := by
    apply List.any_eq_false.mpr
    intro c hc
    rcases List.mem_append.mp hc with h | h
    · simp [segChar_no_bad hall c h]
    · fin_cases h <;> decide
  have hgit : 4 < (r.data ++ ['.', 'g', 'i', 't']).length ∧
      ((r.data ++ ['.', 'g', 'i', 't']).drop ((r.data ++ ['.', 'g', 'i', 't']).length - 4)).map
        Char.toLower = ['.', 'g', 'i', 't'] := by
    constructor
    · rw [hlen]
      have : 0 < r.data.length := List.length_pos.mpr hne
      omega
    · rw [hlen4, List.drop_left]
      decide
  unfold repoSegment
  rw [if_neg (by simp [List.isEmpty_iff]), if_neg (by simp [hbad]), if_pos hgit]
  rw [hlen4, List.take_left]

theorem repoSegment_plain (r : String)
    (hne : r.data ≠ []) (hall : r.data.all isSegChar = true)
    (hgit : ¬(4 < r.data.length ∧
      (r.data.drop (r.data.length - 4)).map Char.toLower = ['.', 'g', 'i', 't'])) :
    repoSegment r.data = some r := by
  have hbad : r.data.any (fun c => c == '/' || isJsSpace c) = false :=
    List.any_eq_false.mpr (fun c hc => by simp [segChar_no_bad hall c hc])
  unfold repoSegment
  rw [if_neg (by simp [List.isEmpty_iff, hne]), if_neg (by simp [hbad]), if_neg hgit]

theorem stripPrefixCi_ne_head (p : Char) (ps : List Char) (c : Char) (cs : List Char)
    (h : ¬ c.toLower = p) : stripPrefixCi (p :: ps) (c :: cs) = none := by
  simp only [stripPrefixCi]
  rw [if_neg h]

theorem parse_ssh_form (o r : String)
    (hone : o.data ≠ []) (hoall : o.data.all isSegChar = true)
    (hrne : r.data ≠ []) (hrall : r.data.all isSegChar = true) :
    parseGitHubRemoteUrl ("git@github.com:" ++ o ++ "/" ++ r ++ ".git") = some (o, r) := by
  have hdat : ("git@github.com:" ++ o ++ "/" ++ r ++ ".git").data
      = "git@github.com:".data ++ (o.data ++ '/' :: (r.data ++ ['.', 'g', 'i', 't'])) := by
    simp only [String.data_append]
    simp [List.append_assoc]
  have hne : ("git@github.com:" ++ o ++ "/" ++ r ++ ".git") ≠ "" := by
    intro h
    have hd := congrArg String.data h
    rw [hdat] at hd
    simp at hd
  have hnosp : ∀ c ∈ ("git@github.com:" ++ o ++ "/" ++ r ++ ".git").data, isJsSpace c = false := by
    rw [hdat]
    intro c hc
    rcases List.mem_append.mp hc with h | h
    · exact (by decide : ∀ c ∈ "git@github.com:".data, isJsSpace c = false) c h
    rcases List.mem_append.mp h with h | h
    · exact segChar_no_space hoall c h
    rcases List.mem_cons.mp h with h | h
    · subst h; decide
    rcases List.mem_append.mp h with h | h
    · exact segChar_no_space hrall c h
    · exact (by decide : ∀ c ∈ ['.', 'g', 'i', 't'], isJsSpace c = false) c h
  unfold parseGitHubRemoteUrl
  rw [if_neg hne, jsTrim_eq_self _ hnosp, hdat]
  rw [stripPrefixCi_append _ _ (by decide)]
  show ownerRepoSegs (o.data ++ '/' :: (r.data ++ ['.', 'g', 'i', 't'])) = some (o, r)
  rw [ownerRepoSegs_split o _ hone hoall, repoSegment_append_git r hrne hrall]
  rfl

theorem parse_https_form (o : String) (tail : List Char) (res : Option String)
    (hone : o.data ≠ []) (hoall : o.data.all isSegChar = true)
    (hnosp : ∀ c ∈ tail, isJsSpace c = false)
    (hdat : ("https://github.com/" ++ o ++ "/").data ++ tail
      = "https://github.com/".data ++ (o.data ++ '/' :: tail))
    (hseg : repoSegment tail = res) :
    parseGitHubRemoteUrl (String.mk (("https://github.com/" ++ o ++ "/").data ++ tail))
      = res.map (fun rr => (o, rr)) := by
  have hdata : (String.mk (("https://github.com/" ++ o ++ "/").data ++ tail)).data
      = "https://github.com/".data ++ (o.data ++ '/' :: tail) := hdat
  have hne : String.mk (("https://github.com/" ++ o ++ "/").data ++ tail) ≠ "" := by
    intro h
    have hd := congrArg String.data h
    rw [hdata] at hd
    simp at hd
  have hnosp2 : ∀ c ∈ (String.mk (("https://github.com/" ++ o ++ "/").data ++ tail)).data,
      isJsSpace c = false := by
    rw [hdata]
    intro c hc
    rcases List.mem_append.mp hc with h | h
    · exact (by decide : ∀ c ∈ "https://github.com/".data, isJsSpace c = false) c h
    rcases List.mem_append.mp h with h | h
    · exact segChar_no_space hoall c h
    rcases List.mem_cons.mp h with h | h
    · subst h; decide
    · exact hnosp c h
  have hssh : stripPrefixCi "git@github.com:".data
      ("https://github.com/".data ++ (o.data ++ '/' :: tail)) = none := by
    rw [show "git@github.com:".data = 'g' :: "it@github.com:".data from rfl,
      show "https://github.com/".data ++ (o.data ++ '/' :: tail)
        = 'h' :: ("ttps://github.com/".data ++ (o.data ++ '/' :: tail)) from rfl]
    exact stripPrefixCi_ne_head _ _ _ _ (by decide)
  unfold parseGitHubRemoteUrl
  rw [if_neg hne, jsTrim_eq_self _ hnosp2, hdata, hssh]
  show (match stripPrefixCi "https://github.com/".data
      ("https://github.com/".data ++ (o.data ++ '/' :: tail)) with
    | some rest => ownerRepoSegs rest
    | none =>
      match stripPrefixCi "http://github.com/".data
          ("https://github.com/".data ++ (o.data ++ '/' :: tail)) with
      | some rest => ownerRepoSegs rest
      | none => none) = res.map (fun rr => (o, rr))
  rw [stripPrefixCi_append _ _ (by decide)]
  show ownerRepoSegs (o.data ++ '/' :: tail) = res.map (fun rr => (o, rr))
  rw [ownerRepoSegs_split o _ hone hoall, hseg]

theorem option_eq_none_of_isSome_false {α : Type} {o : Option α}
    (h : o.isSome = false) : o = none := by
  cases o with
  | none => rfl
  | some a => simp at h

theorem parse_eq_none_of_no_match (u : String) (h1 : sshMatches u = false)
    (h2 : httpsMatches u = false) : parseGitHubRemoteUrl u = none := by
  unfold parseGitHubRemoteUrl
  by_cases hu : u = ""
  · rw [if_pos hu]
  rw [if_neg hu]
  cases hssh : stripPrefixCi "git@github.com:".data (jsTrim u).data with
  | some rest =>
    simp only [sshMatches, hssh] at h1
    exact option_eq_none_of_isSome_false h1
  | none =>
    cases hhttps : stripPrefixCi "https://github.com/".data (jsTrim u).data with
    | some rest =>
      simp only [httpsMatches, hhttps] at h2
      exact option_eq_none_of_isSome_false h2
    | none =>
      cases hhttp : stripPrefixCi "http://github.com/".data (jsTrim u).data with
      | some rest =>
        simp only [httpsMatches, hhttps, hhttp] at h2
        exact option_eq_none_of_isSome_false h2
      | none => rfl

/-- C10 amended: for nonempty owner and repo strings whose characters are
neither slashes nor JavaScript whitespace, and where repo is not a string of
more than four characters ending case-insensitively in ".git", the parser
maps the SSH form, the HTTPS form with ".git", and the HTTPS form without
".git" all to the owner-repo pair (stripping the trailing ".git" of the URL);
and it returns none on the empty string and on every input that matches
neither the SSH pattern nor the HTTPS pattern. -/
theorem c10_parseGitHubRemoteUrl_three_forms (o r : String)
    (ho : o.data ≠ [] ∧ o.data.all isSegChar = true)
    (hr : r.data ≠ [] ∧ r.data.all isSegChar = true)
    (hgit : ¬(4 < r.data.length ∧
      (r.data.drop (r.data.length - 4)).map Char.toLower = ['.', 'g', 'i', 't'])) :
    parseGitHubRemoteUrl ("git@github.com:" ++ o ++ "/" ++ r ++ ".git") = some (o, r) ∧
    parseGitHubRemoteUrl ("https://github.com/" ++ o ++ "/" ++ r ++ ".git") = some (o, r) ∧
    parseGitHubRemoteUrl ("https://github.com/" ++ o ++ "/" ++ r) = some (o, r) ∧
    parseGitHubRemoteUrl "" = none ∧
    (∀ u : String, sshMatches u = false → httpsMatches u = false →
      parseGitHubRemoteUrl u = none) := by
  have hgitnosp : ∀ c ∈ r.data ++ ['.', 'g', 'i', 't'], isJsSpace c = false := by
    intro c hc
    rcases List.mem_append.mp hc with h | h
    · exact segChar_no_space hr.2 c h
    · exact (by decide : ∀ c ∈ ['.', 'g', 'i', 't'], isJsSpace c = false) c h
  refine ⟨parse_ssh_form o r ho.1 ho.2 hr.1 hr.2, ?_, ?_, rfl, parse_eq_none_of_no_match⟩
  · have e : ("https://github.com/" ++ o ++ "/" ++ r ++ ".git")
        = String.mk (("https://github.com/" ++ o ++ "/").data ++ (r.data ++ ['.', 'g', 'i', 't'])) := by
      apply String.ext
      simp [String.data_append, List.append_assoc]
    rw [e]
    rw [parse_https_form o (r.data ++ ['.', 'g', 'i', 't']) (some r) ho.1 ho.2 hgitnosp
      (by simp [String.data_append, List.append_assoc])
      (repoSegment_append_git r hr.1 hr.2)]
    rfl
  · have e : ("https://github.com/" ++ o ++ "/" ++ r)
        = String.mk (("https://github.com/" ++ o ++ "/").data ++ r.data) := by
      apply String.ext
      simp [String.data_append, List.append_assoc]
    rw [e]
    rw [parse_https_form o r.data (some r) ho.1 ho.2 (segChar_no_space hr.2)
      (by simp [String.data_append, List.append_assoc])
      (repoSegment_plain r hr.1 hr.2 hgit)]
    rfl

/-- C10 witness: the amended theorem instantiated at owner "octo" and repo
"hello", and its non-matching-input conjunct instantiated at an input that
matches neither pattern. -/
theorem c10_parseGitHubRemoteUrl_three_forms_witness :
    parseGitHubRemoteUrl ("git@github.com:" ++ "octo" ++ "/" ++ "hello" ++ ".git")
      = some ("octo", "hello") ∧
    parseGitHubRemoteUrl ("https://github.com/" ++ "octo" ++ "/" ++ "hello" ++ ".git")
      = some ("octo", "hello") ∧
    parseGitHubRemoteUrl ("https://github.com/" ++ "octo" ++ "/" ++ "hello")
      = some ("octo", "hello") ∧
    parseGitHubRemoteUrl "" = none ∧
    parseGitHubRemoteUrl "ssh://gitlab.example/octo/hello.git" = none := by
  have h := c10_parseGitHubRemoteUrl_three_forms "octo" "hello" (by decide) (by decide)
    (by decide)
  exact ⟨h.1, h.2.1, h.2.2.1, h.2.2.2.1,
    h.2.2.2.2 "ssh://gitlab.example/octo/hello.git" (by decide) (by decide)⟩

/-- C10 counterexample: for owner "o" and repo "a.git" (neither contains a
slash or whitespace) the HTTPS form without ".git" parses to ("o", "a"),
not ("o", "a.git"), so the three forms do not agree on the claimed result;
and for the empty owner the SSH form parses to none rather than a pair. -/
theorem c10_parseGitHubRemoteUrl_counterexample :
    parseGitHubRemoteUrl "https://github.com/o/a.git" = some ("o", "a") ∧
    parseGitHubRemoteUrl "https://github.com/o/a.git" ≠ some ("o", "a.git") ∧
    parseGitHubRemoteUrl "git@github.com:o/a.git.git" = some ("o", "a.git") ∧
    parseGitHubRemoteUrl "git@github.com:/r.git" = none :=
  ⟨by decide, by decide, by decide, by decide⟩

theorem char_range (c : Char) : c.toNat < 55296 ∨ (57343 < c.toNat ∧ c.toNat < 1114112) := by
  have h := c.valid
  rcases h with h | h
  · left
    exact_mod_cast h
  · right
    exact ⟨by exact_mod_cast h.1, by exact_mod_cast h.2⟩

theorem utf8DecodeAux_encodeChar (c : Char) (f : Nat) (bs : List Nat) :
    utf8DecodeAux (f + 1) (utf8EncodeChar c ++ bs)
      = (utf8DecodeAux f bs).map (fun cs => c :: cs) := by
  have hrange := char_range c
  have hofnat := Char.ofNat_toNat c
  by_cases h1 : c.toNat < 128
  · simp only [utf8EncodeChar, if_pos h1, List.cons_append, List.nil_append]
    simp only [utf8DecodeAux, if_pos h1, hofnat]
  by_cases h2 : c.toNat < 2048
  · simp only [utf8EncodeChar, if_neg h1, if_pos h2, List.cons_append, List.nil_append]
    simp only [utf8DecodeAux]
    rw [if_neg (by omega), if_neg (by omega), if_pos (by omega)]
    rw [if_pos (by simp only [isContByte, Bool.and_eq_true, decide_eq_true_eq]; omega)]
    have hn : (192 + c.toNat / 64 - 192) * 64 + (128 + c.toNat % 64 - 128) = c.toNat := by omega
    rw [hn, hofnat]
  by_cases h3 : c.toNat < 65536
  · simp only [utf8EncodeChar, if_neg h1, if_neg h2, if_pos h3, List.cons_append, List.nil_append]
    simp only [utf8DecodeAux]
    rw [if_neg (by omega), if_neg (by omega), if_neg (by omega), if_pos (by omega)]
    rw [if_pos (by simp only [isContByte, Bool.and_eq_true, decide_eq_true_eq]; omega)]
    have hn : (224 + c.toNat / 4096 - 224) * 4096 + (128 + c.toNat / 64 % 64 - 128) * 64 +
        (128 + c.toNat % 64 - 128) = c.toNat := by omega
    rw [hn]
    rw [if_pos (by omega), hofnat]
  · simp only [utf8EncodeChar, if_neg h1, if_neg h2, if_neg h3, List.cons_append, List.nil_append]
    simp only [utf8DecodeAux]
    rw [if_neg (by omega), if_neg (by omega), if_neg (by omega), if_neg (by omega),
      if_pos (by omega)]
    rw [if_pos (by simp only [isContByte, Bool.and_eq_true, decide_eq_true_eq]; omega)]
    have hn : (240 + c.toNat / 262144 - 240) * 262144 + (128 + c.toNat / 4096 % 64 - 128) * 4096 +
        (128 + c.toNat / 64 % 64 - 128) * 64 + (128 + c.toNat % 64 - 128) = c.toNat := by omega
    rw [hn]
    rw [if_pos (by omega), hofnat]

theorem utf8DecodeAux_encode (cs : List Char) :
    ∀ extra : Nat, utf8DecodeAux (cs.length + extra) (utf8Encode cs) = some cs := by
  induction cs with
  | nil => intro extra; cases extra <;> rfl
  | cons c cs ih =>
    intro extra
    have hstep := utf8DecodeAux_encodeChar c (cs.length + extra) (utf8Encode cs)
    have hfuel : (c :: cs).length + extra = (cs.length + extra) + 1 := by
      simp [List.length_cons]
      omega
    rw [hfuel]
    show utf8DecodeAux ((cs.length + extra) + 1) (utf8EncodeChar c ++ utf8Encode cs)
      = some (c :: cs)
    rw [hstep, ih extra]
    rfl

theorem length_le_utf8Encode (cs : List Char) : cs.length ≤ (utf8Encode cs).length := by
  induction cs with
  | nil => simp [utf8Encode]
  | cons c cs ih =>
    have hc : 1 ≤ (utf8EncodeChar c).length := by
      simp only [utf8EncodeChar]
      split_ifs <;> simp
    simp only [utf8Encode, List.length_append, List.length_cons]
    omega

theorem utf8Decode_encode (cs : List Char) : utf8Decode (utf8Encode cs) = some cs := by
  unfold utf8Decode
  have hle := length_le_utf8Encode cs
  have : (utf8Encode cs).length = cs.length + ((utf8Encode cs).length - cs.length) := by omega
  rw [this, utf8DecodeAux_encode]

theorem hexVal_hexDigitChar (n : Nat) (h : n < 16) : hexVal (hexDigitChar n) = some n := by
  interval_cases n <;> decide

theorem hexDigitChar_isDigit (n : Nat) (h : n < 10) : (hexDigitChar n).isDigit = true := by
  interval_cases n <;> decide

theorem hexDigitChar_toNat (n : Nat) (h : n < 10) : (hexDigitChar n).toNat - 48 = n := by
  interval_cases n <;> decide

theorem natDigitsRev_digits (n : Nat) : ∀ c ∈ natDigitsRev n, c.isDigit = true := by
  induction n using Nat.strong_induction_on with
  | _ n ih =>
    cases n with
    | zero => intro c hc; simp [natDigitsRev] at hc
    | succ m =>
      intro c hc
      rw [natDigitsRev] at hc
      rcases List.mem_cons.mp hc with h | h
      · subst h; exact hexDigitChar_isDigit _ (Nat.mod_lt _ (by omega))
      · exact ih ((m + 1) / 10) (Nat.div_lt_self (by omega) (by omega)) c h

theorem natToChars_digits (n : Nat) : ∀ c ∈ natToChars n, c.isDigit = true := by
  unfold natToChars
  split
  · intro c hc; simp only [List.mem_singleton] at hc; subst hc; decide
  · intro c hc; exact natDigitsRev_digits n c (List.mem_reverse.mp hc)

theorem natToChars_ne_nil (n : Nat) : natToChars n ≠ [] := by
  unfold natToChars
  split
  · simp
  · rename_i h
    cases n with
    | zero => exact absurd rfl h
    | succ m => rw [natDigitsRev]; simp

theorem digitsVal_append_one (ds : List Char) (c : Char) :
    digitsVal (ds ++ [c]) = digitsVal ds * 10 + (c.toNat - 48) := by
  simp [digitsVal, List.foldl_append]

theorem digitsVal_rev_natDigitsRev (n : Nat) : digitsVal ((natDigitsRev n).reverse) = n := by
  induction n using Nat.strong_induction_on with
  | _ n ih =>
    cases n with
    | zero => simp [natDigitsRev, digitsVal]
    | succ m =>
      rw [natDigitsRev, List.reverse_cons, digitsVal_append_one,
        ih ((m + 1) / 10) (Nat.div_lt_self (by omega) (by omega)),
        hexDigitChar_toNat _ (Nat.mod_lt _ (by omega))]
      omega

theorem digitsVal_natToChars (n : Nat) : digitsVal (natToChars n) = n := by
  unfold natToChars
  split
  · rename_i h; subst h; rfl
  · exact digitsVal_rev_natDigitsRev n

theorem parseNatChars_natToChars (n : Nat) (a : Char) (rest : List Char)
    (ha : a.isDigit = false) :
    parseNatChars (natToChars n ++ a :: rest) = some (n, a :: rest) := by
  have hsplit := takeWhile_append_cons (natToChars n) a rest (natToChars_digits n) ha
  unfold parseNatChars
  rw [hsplit.1, hsplit.2]
  rw [if_neg (by simp [List.isEmpty_iff, natToChars_ne_nil n])]
  rw [digitsVal_natToChars]

theorem psb_done (Y : List Char) : parseStringBody ('\"' :: Y) = some ([], Y) := by
  rw [parseStringBody.eq_def]
  simp

theorem psb_q (Y : List Char) :
    parseStringBody ('\\' :: '\"' :: Y)
      = (parseStringBody Y).map (fun p => ('\"' :: p.1, p.2)) := by
  rw [parseStringBody.eq_def]
  simp [unescapeChar]

theorem psb_bs (Y : List Char) :
    parseStringBody ('\\' :: '\\' :: Y)
      = (parseStringBody Y).map (fun p => ('\\' :: p.1, p.2)) := by
  rw [parseStringBody.eq_def]
  simp [unescapeChar]

theorem psb_n (Y : List Char) :
    parseStringBody ('\\' :: 'n' :: Y)
      = (parseStringBody Y).map (fun p => ('\n' :: p.1, p.2)) := by
  rw [parseStringBody.eq_def]
  simp [unescapeChar]

theorem psb_r (Y : List Char) :
    parseStringBody ('\\' :: 'r' :: Y)
      = (parseStringBody Y).map (fun p => ('\r' :: p.1, p.2)) := by
  rw [parseStringBody.eq_def]
  simp [unescapeChar]

theorem psb_t (Y : List Char) :
    parseStringBody ('\\' :: 't' :: Y)
      = (parseStringBody Y).map (fun p => ('\t' :: p.1, p.2)) := by
  rw [parseStringBody.eq_def]
  simp [unescapeChar]

theorem psb_b (Y : List Char) :
    parseStringBody ('\\' :: 'b' :: Y)
      = (parseStringBody Y).map (fun p => ('\x08' :: p.1, p.2)) := by
  rw [parseStringBody.eq_def]
  simp [unescapeChar]

theorem psb_f (Y : List Char) :
    parseStringBody ('\\' :: 'f' :: Y)
      = (parseStringBody Y).map (fun p => ('\x0c' :: p.1, p.2)) := by
  rw [parseStringBody.eq_def]
  simp [unescapeChar]

theorem psb_u (g1 g2 g3 g4 : Char) (Y : List Char) :
    parseStringBody ('\\' :: 'u' :: g1 :: g2 :: g3 :: g4 :: Y)
      = match hexVal g1, hexVal g2, hexVal g3, hexVal g4 with
        | some a, some b, some x, some d =>
          if ((a * 16 + b) * 16 + x) * 16 + d < 55296 ∨
              (57343 < ((a * 16 + b) * 16 + x) * 16 + d ∧
                ((a * 16 + b) * 16 + x) * 16 + d < 1114112) then
            (parseStringBody Y).map
              (fun p => (Char.ofNat (((a * 16 + b) * 16 + x) * 16 + d) :: p.1, p.2))
          else none
        | _, _, _, _ => none := by
  rw [parseStringBody.eq_def]
  simp

theorem psb_lit (c : Char) (Y : List Char) (h1 : ¬ c = '\"') (h2 : ¬ c = '\\')
    (h3 : 32 ≤ c.toNat) :
    parseStringBody (c :: Y) = (parseStringBody Y).map (fun p => (c :: p.1, p.2)) := by
  rw [parseStringBody.eq_def]
  simp [h1, h2, h3]

theorem parseStringBody_escape (l : List Char) (rest : List Char) :
    parseStringBody (escapeList l ++ '\"' :: rest) = some (l, rest) := by
  induction l with
  | nil =>
    simp only [escapeList, List.nil_append]
    exact psb_done rest
  | cons c l ih =>
    simp only [escapeList, List.append_assoc]
    by_cases h1 : c = '\"'
    · subst h1
      show parseStringBody ('\\' :: '\"' :: (escapeList l ++ '\"' :: rest)) = _
      rw [psb_q, ih]; rfl
    by_cases h2 : c = '\\'
    · subst h2
      show parseStringBody ('\\' :: '\\' :: (escapeList l ++ '\"' :: rest)) = _
      rw [psb_bs, ih]; rfl
    by_cases h3 : c = '\n'
    · subst h3
      show parseStringBody ('\\' :: 'n' :: (escapeList l ++ '\"' :: rest)) = _
      rw [psb_n, ih]; rfl
    by_cases h4 : c = '\r'
    · subst h4
      show parseStringBody ('\\' :: 'r' :: (escapeList l ++ '\"' :: rest)) = _
      rw [psb_r, ih]; rfl
    by_cases h5 : c = '\t'
    · subst h5
      show parseStringBody ('\\' :: 't' :: (escapeList l ++ '\"' :: rest)) = _
      rw [psb_t, ih]; rfl
    by_cases h6 : c = '\x08'
    · subst h6
      show parseStringBody ('\\' :: 'b' :: (escapeList l ++ '\"' :: rest)) = _
      rw [psb_b, ih]; rfl
    by_cases h7 : c = '\x0c'
    · subst h7
      show parseStringBody ('\\' :: 'f' :: (escapeList l ++ '\"' :: rest)) = _
      rw [psb_f, ih]; rfl
    by_cases h8 : c.toNat < 32
    · have he : escapeChar c
          = ['\\', 'u', '0', '0', hexDigitChar (c.toNat / 16), hexDigitChar (c.toNat % 16)] := by
        unfold escapeChar
        rw [if_neg h1, if_neg h2, if_neg h3, if_neg h4, if_neg h5, if_neg h6, if_neg h7,
          if_pos h8]
      rw [he]
      simp only [List.cons_append, List.nil_append]
      have hN : ((0 * 16 + 0) * 16 + c.toNat / 16) * 16 + c.toNat % 16 = c.toNat := by omega
      simp only [psb_u, show hexVal '0' = some 0 from rfl,
        hexVal_hexDigitChar (c.toNat / 16) (by omega), hexVal_hexDigitChar (c.toNat % 16) (by omega),
        hN, Char.ofNat_toNat]
      rw [if_pos (Or.inl (by omega))]
      rw [ih]
      rfl
    · have he : escapeChar c = [c] := by
        unfold escapeChar
        rw [if_neg h1, if_neg h2, if_neg h3, if_neg h4, if_neg h5, if_neg h6, if_neg h7,
          if_neg h8]
      rw [he]
      simp only [List.singleton_append]
      rw [psb_lit c _ h1 h2 (by omega), ih]
      rfl

theorem parseJVal_render (v : JVal) (a : Char) (rest : List Char) (ha : a.isDigit = false) :
    parseJVal (renderJVal v ++ a :: rest) = some (v, a :: rest) := by
  cases v with
  | str s =>
    simp only [renderJVal, List.cons_append, List.append_assoc, List.singleton_append,
      List.nil_append]
    simp only [parseJVal, if_true]
    rw [parseStringBody_escape]
    rfl
  | num n =>
    obtain ⟨d, ds, hEq⟩ := List.exists_cons_of_ne_nil (natToChars_ne_nil n)
    have hd : d.isDigit = true := natToChars_digits n d (by rw [hEq]; simp)
    simp only [renderJVal]
    rw [hEq]
    simp only [List.cons_append]
    simp only [parseJVal]
    rw [if_neg (by intro h; rw [h] at hd; exact absurd hd (by decide))]
    rw [if_pos hd]
    rw [show d :: (ds ++ a :: rest) = (d :: ds) ++ a :: rest from rfl]
    rw [← hEq, parseNatChars_natToChars n a rest ha]
    rfl
  | bool b =>
    cases b with
    | false =>
      show parseJVal (['f', 'a', 'l', 's', 'e'] ++ a :: rest) = _
      simp only [List.cons_append, List.nil_append]
      simp only [parseJVal]
      rfl
    | true =>
      show parseJVal (['t', 'r', 'u', 'e'] ++ a :: rest) = _
      simp only [List.cons_append, List.nil_append]
      simp only [parseJVal]
      rfl

theorem renderFieldsInner_length (fs : List (String × JVal)) :
    fs.length ≤ (renderFieldsInner fs).length := by
  induction fs with
  | nil => simp [renderFieldsInner]
  | cons kv fs ih =>
    cases fs with
    | nil => simp [renderFieldsInner, renderField]
    | cons kv2 fs2 =>
      simp only [renderFieldsInner, renderField, List.length_append, List.length_cons] at ih ⊢
      omega

theorem parseFieldsLoop_render (fs : List (String × JVal)) :
    ∀ (k : String) (v : JVal) (fuel : Nat) (rest : List Char),
      fs.length + 1 ≤ fuel →
      parseFieldsLoop fuel (renderFieldsInner ((k, v) :: fs) ++ '\x7d' :: rest)
        = some ((k, v) :: fs, rest) := by
  induction fs with
  | nil =>
    intro k v fuel rest hfuel
    cases fuel with
    | zero => omega
    | succ f =>
      have hv : parseJVal (renderJVal v ++ '\x7d' :: rest) = some (v, '\x7d' :: rest) :=
        parseJVal_render v _ _ (by decide)
      simp only [renderFieldsInner, renderField, List.cons_append, List.append_assoc]
      simp only [parseFieldsLoop, parseStringBody_escape, hv]
  | cons kv2 fs2 ih =>
    intro k v fuel rest hfuel
    cases fuel with
    | zero => omega
    | succ f =>
      rcases kv2 with ⟨k2, v2⟩
      have hv : parseJVal (renderJVal v
            ++ ',' :: (renderFieldsInner ((k2, v2) :: fs2) ++ '\x7d' :: rest))
          = some (v, ',' :: (renderFieldsInner ((k2, v2) :: fs2) ++ '\x7d' :: rest)) :=
        parseJVal_render v _ _ (by decide)
      have hrec := ih k2 v2 f rest (by simp only [List.length_cons] at hfuel ⊢; omega)
      simp only [renderFieldsInner, renderField, List.cons_append, List.append_assoc]
      simp only [parseFieldsLoop, parseStringBody_escape, hv, hrec]
      rfl

theorem parseObj_cons (X : List Char) :
    parseObj ('\x7b' :: '\"' :: X) = parseFieldsLoop (('\"' :: X).length + 1) ('\"' :: X) :=
  rfl

theorem parseObj_render (fs : List (String × JVal)) (hne : fs ≠ []) :
    parseObj (renderObj fs) = some (fs, []) := by
  obtain ⟨kv, fs2, rfl⟩ : ∃ kv fs2, fs = kv :: fs2 := by
    cases fs with
    | nil => exact absurd rfl hne
    | cons kv fs2 => exact ⟨kv, fs2, rfl⟩
  rcases kv with ⟨k, v⟩
  obtain ⟨tail, htail⟩ : ∃ tail, renderFieldsInner ((k, v) :: fs2) = '\"' :: tail := by
    cases fs2 with
    | nil => exact ⟨_, rfl⟩
    | cons kv2 fs3 => exact ⟨_, rfl⟩
  simp only [renderObj]
  rw [htail]
  simp only [List.cons_append]
  rw [parseObj_cons]
  rw [show '\"' :: (tail ++ ['\x7d']) = ('\"' :: tail) ++ '\x7d' :: ([] : List Char) from rfl]
  rw [← htail]
  refine parseFieldsLoop_render fs2 k v _ [] ?_
  have hlen2 := renderFieldsInner_length ((k, v) :: fs2)
  simp only [List.length_cons, List.length_append] at hlen2 ⊢
  omega

theorem validateMsg_msgFields (m : ControlMsg) (h : shapeOK m) :
    validateMsg (msgFields m) = some m := by
  cases m with
  | b s v =>
    rw [show validateMsg (msgFields (.b s v))
      = (if s ≠ "" ∧ 1 ≤ v then some (.b s v) else none) from rfl]
    exact if_pos h
  | p v =>
    rw [show validateMsg (msgFields (.p v)) = (if 1 ≤ v then some (.p v) else none) from rfl]
    exact if_pos h
  | po v =>
    rw [show validateMsg (msgFields (.po v)) = (if 1 ≤ v then some (.po v) else none) from rfl]
    exact if_pos h
  | ok v =>
    rw [show validateMsg (msgFields (.ok v)) = (if 1 ≤ v then some (.ok v) else none) from rfl]
    exact if_pos h
  | bok v =>
    rw [show validateMsg (msgFields (.bok v)) = (if 1 ≤ v then some (.bok v) else none) from rfl]
    exact if_pos h
  | e c f => rfl

theorem parseMsg_renderMsg (m : ControlMsg) (h : shapeOK m) :
    parseMsg (renderMsg m) = some m := by
  unfold parseMsg renderMsg
  rw [parseObj_render (msgFields m) (by cases m <;> simp [msgFields])]
  exact validateMsg_msgFields m h

theorem decodeControl_encodeControl (m : ControlMsg) (h : shapeOK m) :
    decodeControl (encodeControl m) = Except.ok m := by
  unfold encodeControl decodeControl
  simp only [utf8Decode_encode, parseMsg_renderMsg m h, if_true]

theorem step_closed (cfg : ServerCfg) (live : String → Bool) (st : SockState) (fr : Frame)
    (now : Nat) (h : st.closed = true) : step cfg live st fr now = (st, []) := by
  unfold step
  rw [if_pos h]

theorem step_text_bound (cfg : ServerCfg) (live : String → Bool) (st : SockState) (s : String)
    (d : String) (now : Nat) (hopen : st.closed = false) (hb : st.boundSessionId = some s)
    (hlive : live s = true) :
    step cfg live st (.text d) now = (st, [SrvOut.sinkWrite s d]) := by
  unfold step
  rw [hopen, hb]
  simp [hlive]

theorem step_text_unbound (cfg : ServerCfg) (live : String → Bool) (st : SockState)
    (d : String) (now : Nat) (hopen : st.closed = false) (hb : st.boundSessionId = none) :
    step cfg live st (.text d) now = (st, [SrvOut.send (.e "unknown_session" false)]) := by
  unfold step
  rw [hopen, hb]
  simp

theorem step_bind (cfg : ServerCfg) (live : String → Bool) (st : SockState) (s : String)
    (v : Nat) (now : Nat) (hopen : st.closed = false) (hs : s ≠ "") (hv : 1 ≤ v) :
    step cfg live st (.binary (encodeControl (.b s v))) now
      = ({ st with boundSessionId := some s }, [SrvOut.send (.bok 1)]) := by
  unfold step
  rw [hopen]
  simp only [decodeControl_encodeControl (ControlMsg.b s v) ⟨hs, hv⟩]
  simp

theorem step_ping (cfg : ServerCfg) (live : String → Bool) (st : SockState)
    (v : Nat) (now : Nat) (hopen : st.closed = false) (hv : 1 ≤ v) :
    step cfg live st (.binary (encodeControl (.p v))) now
      = ({ st with lastActivity := now }, [SrvOut.send (.po 1)]) := by
  unfold step
  rw [hopen]
  simp only [decodeControl_encodeControl (ControlMsg.p v) hv]
  simp

/-- C4: for every open socket (ready or bound, any current binding) and any
session resolution function, a valid bind request with session id s
replaces the socket's single bound session id with s in one step and is
answered with exactly bok, with no check that s resolves to a live session
(binding is optimistic); the resulting state again holds exactly one bound
session id, some s. -/
theorem c4_bind_replaces_and_boks (cfg : ServerCfg) (live : String → Bool) (st : SockState)
    (s : String) (v : Nat) (now : Nat) (hopen : st.closed = false) (hs : s ≠ "") (hv : 1 ≤ v) :
    step cfg live st (.binary (encodeControl (.b s v))) now
        = ({ st with boundSessionId := some s }, [SrvOut.send (.bok 1)]) ∧
    (step cfg live st (.binary (encodeControl (.b s v))) now).1.boundSessionId = some s :=
  ⟨step_bind cfg live st s v now hopen hs hv, by rw [step_bind cfg live st s v now hopen hs hv]⟩

/-- C4 witness: binding an open, already-bound socket to session "xyz"
overwrites the binding and replies bok, even though no session is live. -/
theorem c4_bind_replaces_and_boks_witness :
    step ⟨5, 10⟩ (fun _ => false) ⟨false, some "old", 0, []⟩
        (.binary (encodeControl (.b "xyz" 1))) 3
      = (⟨false, some "xyz", 0, []⟩, [SrvOut.send (.bok 1)]) := by
  have h := c4_bind_replaces_and_boks ⟨5, 10⟩ (fun _ => false) ⟨false, some "old", 0, []⟩
    "xyz" 1 3 rfl (by decide) (by decide)
  exact h.1

/-- C1: a socket bound to session s whose session resolves receives a text
frame: the raw payload is written to s's input sink exactly once and
verbatim (the single output of the step is that one write, with the
payload unchanged); and the scenario of the spec: bind to s (answered
bok) followed by a text frame yields exactly one verbatim write to s. -/
theorem c1_bound_text_verbatim (cfg : ServerCfg) (live : String → Bool) (st : SockState)
    (s d : String) (now t1 t2 : Nat) (hopen : st.closed = false) (hlive : live s = true)
    (hs : s ≠ "") :
    (st.boundSessionId = some s →
      step cfg live st (.text d) now = (st, [SrvOut.sinkWrite s d])) ∧
    runFrames cfg live st [(bindFrame s, t1), (Frame.text d, t2)]
      = ({ st with boundSessionId := some s },
          [SrvOut.send (.bok 1), SrvOut.sinkWrite s d]) := by
  constructor
  · intro hb
    exact step_text_bound cfg live st s d now hopen hb hlive
  · simp only [runFrames, bindFrame]
    rw [step_bind cfg live st s 1 t1 hopen hs (by decide)]
    rw [step_text_bound cfg live { st with boundSessionId := some s } s d t2 hopen rfl hlive]
    rfl

/-- C1 witness: the scenario at session "abc" with payload a carriage
return: bind then keystroke delivers "\r" to "abc" exactly once. -/
theorem c1_bound_text_verbatim_witness :
    runFrames ⟨5, 10⟩ (fun _ => true) (initSock 0) [(bindFrame "abc", 1), (Frame.text "\r", 2)]
      = (⟨false, some "abc", 0, []⟩,
          [SrvOut.send (.bok 1), SrvOut.sinkWrite "abc" "\r"]) := by
  have h := c1_bound_text_verbatim ⟨5, 10⟩ (fun _ => true) (initSock 0) "abc" "\r" 0 1 2
    rfl rfl (by decide)
  exact h.2

theorem run_pings (cfg : ServerCfg) (live : String → Bool) :
    ∀ (ts : List Nat) (st : SockState), st.closed = false →
      (runFrames cfg live st (ts.map (fun t => (pingFrame, t)))).2
          = ts.map (fun _ => SrvOut.send (.po 1)) ∧
      (runFrames cfg live st (ts.map (fun t => (pingFrame, t)))).1.boundSessionId
          = st.boundSessionId := by
  intro ts
  induction ts with
  | nil => intro st _; exact ⟨rfl, rfl⟩
  | cons t ts ih =>
    intro st hopen
    simp only [List.map_cons, runFrames, pingFrame]
    rw [step_ping cfg live st 1 t hopen (by decide)]
    have hrec := ih { st with lastActivity := t } hopen
    simp only [pingFrame] at hrec
    rw [hrec.1]
    refine ⟨rfl, ?_⟩
    exact hrec.2

/-- C7: on every open socket a keepalive ping is answered with exactly one
pong, the only state change being the last-activity timestamp; hence any
number of pings yields exactly one pong each (one po per p, in order) and
leaves boundSessionId unchanged. -/
theorem c7_ping_pong_idempotent (cfg : ServerCfg) (live : String → Bool) (st : SockState)
    (v now : Nat) (ts : List Nat) (hopen : st.closed = false) (hv : 1 ≤ v) :
    step cfg live st (.binary (encodeControl (.p v))) now
        = ({ st with lastActivity := now }, [SrvOut.send (.po 1)]) ∧
    (runFrames cfg live st (ts.map (fun t => (pingFrame, t)))).2
        = ts.map (fun _ => SrvOut.send (.po 1)) ∧
    (runFrames cfg live st (ts.map (fun t => (pingFrame, t)))).1.boundSessionId
        = st.boundSessionId := by
  refine ⟨step_ping cfg live st v now hopen hv, ?_, ?_⟩
  · exact (run_pings cfg live ts st hopen).1
  · exact (run_pings cfg live ts st hopen).2

/-- C7 witness: three pings on a bound socket produce exactly three pongs
and leave the binding untouched. -/
theorem c7_ping_pong_idempotent_witness :
    (runFrames ⟨5, 10⟩ (fun _ => true) ⟨false, some "abc", 0, []⟩
        ([3, 4, 5].map (fun t => (pingFrame, t)))).2
      = [SrvOut.send (.po 1), SrvOut.send (.po 1), SrvOut.send (.po 1)] ∧
    (runFrames ⟨5, 10⟩ (fun _ => true) ⟨false, some "abc", 0, []⟩
        ([3, 4, 5].map (fun t => (pingFrame, t)))).1.boundSessionId = some "abc" := by
  have h := c7_ping_pong_idempotent ⟨5, 10⟩ (fun _ => true) ⟨false, some "abc", 0, []⟩
    1 0 [3, 4, 5] rfl (by decide)
  exact ⟨h.2.1, h.2.2⟩

theorem malformedStep_bound (cfg : ServerCfg) (st : SockState) (now : Nat) :
    (malformedStep cfg st now).1.boundSessionId = st.boundSessionId ∧
    ∀ sid d, SrvOut.sinkWrite sid d ∉ (malformedStep cfg st now).2 := by
  by_cases h : cfg.rateLimit
      ≤ (st.rateEvents.filter (fun t0 => now ≤ t0 + cfg.rateWindow) ++ [now]).length
  · simp only [malformedStep, if_pos h]
    exact ⟨trivial, by intro sid d hh; simp at hh⟩
  · simp only [malformedStep, if_neg h]
    exact ⟨trivial, by intro sid d hh; simp at hh⟩

theorem step_bound_and_writes (cfg : ServerCfg) (live : String → Bool) (st : SockState)
    (fr : Frame) (now : Nat) (hnb : isBindFrame fr = false) :
    (step cfg live st fr now).1.boundSessionId = st.boundSessionId ∧
    ∀ sid d, SrvOut.sinkWrite sid d ∈ (step cfg live st fr now).2 →
      st.boundSessionId = some sid := by
  cases hcl : st.closed with
  | true =>
    rw [step_closed cfg live st fr now hcl]
    exact ⟨rfl, by intro sid d h; simp at h⟩
  | false =>
    cases fr with
    | text payload =>
      cases hb : st.boundSessionId with
      | none =>
        rw [step_text_unbound cfg live st payload now hcl hb]
        exact ⟨hb, by intro sid d h; simp at h⟩
      | some sid0 =>
        cases hl : live sid0 with
        | true =>
          rw [step_text_bound cfg live st sid0 payload now hcl hb hl]
          refine ⟨hb, ?_⟩
          intro sid d h
          simp only [List.mem_singleton, SrvOut.sinkWrite.injEq] at h
          rw [h.1]
        | false =>
          have : step cfg live st (.text payload) now
              = (st, [SrvOut.send (.e "unknown_session" false)]) := by
            unfold step
            rw [hcl, hb]
            simp [hl]
          rw [this]
          exact ⟨hb, by intro sid d h; simp at h⟩
    | binary bytes =>
      cases hdec : decodeControl bytes with
      | error de =>
        have hstep : step cfg live st (.binary bytes) now = malformedStep cfg st now := by
          simp [step, hcl, hdec]
        rw [hstep]
        exact ⟨(malformedStep_bound cfg st now).1,
          fun sid d h => absurd h ((malformedStep_bound cfg st now).2 sid d)⟩
      | ok m =>
        cases m with
        | b s v =>
          exfalso
          have hbt : isBindFrame (.binary bytes) = true := by
            simp only [isBindFrame, hdec]
          rw [hnb] at hbt
          exact absurd hbt (by decide)
        | p v =>
          have hstep : step cfg live st (.binary bytes) now
              = ({ st with lastActivity := now }, [SrvOut.send (.po 1)]) := by
            simp [step, hcl, hdec]
          rw [hstep]
          exact ⟨rfl, by intro sid d h; simp at h⟩
        | po v =>
          have hstep : step cfg live st (.binary bytes) now = malformedStep cfg st now := by
            simp [step, hcl, hdec]
          rw [hstep]
          exact ⟨(malformedStep_bound cfg st now).1,
            fun sid d h => absurd h ((malformedStep_bound cfg st now).2 sid d)⟩
        | ok v =>
          have hstep : step cfg live st (.binary bytes) now = malformedStep cfg st now := by
            simp [step, hcl, hdec]
          rw [hstep]
          exact ⟨(malformedStep_bound cfg st now).1,
            fun sid d h => absurd h ((malformedStep_bound cfg st now).2 sid d)⟩
        | bok v =>
          have hstep : step cfg live st (.binary bytes) now = malformedStep cfg st now := by
            simp [step, hcl, hdec]
          rw [hstep]
          exact ⟨(malformedStep_bound cfg st now).1,
            fun sid d h => absurd h ((malformedStep_bound cfg st now).2 sid d)⟩
        | e c f =>
          have hstep : step cfg live st (.binary bytes) now = malformedStep cfg st now := by
            simp [step, hcl, hdec]
          rw [hstep]
          exact ⟨(malformedStep_bound cfg st now).1,
            fun sid d h => absurd h ((malformedStep_bound cfg st now).2 sid d)⟩

theorem runFrames_bound_and_writes (cfg : ServerCfg) (live : String → Bool) :
    ∀ (fs : List (Frame × Nat)) (st : SockState), (∀ q ∈ fs, isBindFrame q.1 = false) →
      (runFrames cfg live st fs).1.boundSessionId = st.boundSessionId ∧
      ∀ sid d, SrvOut.sinkWrite sid d ∈ (runFrames cfg live st fs).2 →
        st.boundSessionId = some sid := by
  intro fs
  induction fs with
  | nil => intro st _; exact ⟨rfl, by intro sid d h; simp [runFrames] at h⟩
  | cons q fs ih =>
    intro st hnb
    rcases q with ⟨fr, t⟩
    have hstep := step_bound_and_writes cfg live st fr t (hnb (fr, t) (by simp))
    have hrec := ih (step cfg live st fr t).1 (fun q hq => hnb q (by simp [hq]))
    simp only [runFrames]
    constructor
    · rw [hrec.1, hstep.1]
    · intro sid d h
      rcases List.mem_append.mp h with h | h
      · exact hstep.2 sid d h
      · have := hrec.2 sid d h
        rw [hstep.1] at this
        exact this

/-- C2: on every socket, a text frame arriving while no bind has succeeded
is dropped: the step writes to no session's sink, leaves the socket state
unchanged (in particular open), and sends exactly one non-fatal error with
code unknown_session; and along any frame stream from the initial socket
state that contains no valid bind frame, the socket stays unbound and no
payload ever reaches any session's input sink. -/
theorem c2_prebind_text_dropped (cfg : ServerCfg) (live : String → Bool) (now0 : Nat)
    (fs : List (Frame × Nat)) (hnb : ∀ q ∈ fs, isBindFrame q.1 = false) :
    (∀ (st : SockState) (d : String) (now : Nat), st.closed = false →
      st.boundSessionId = none →
      step cfg live st (.text d) now = (st, [SrvOut.send (.e "unknown_session" false)])) ∧
    (runFrames cfg live (initSock now0) fs).1.boundSessionId = none ∧
    ∀ sid d, SrvOut.sinkWrite sid d ∉ (runFrames cfg live (initSock now0) fs).2 := by
  have hrun := runFrames_bound_and_writes cfg live fs (initSock now0) hnb
  refine ⟨fun st d now hopen hb => step_text_unbound cfg live st d now hopen hb, hrun.1, ?_⟩
  intro sid d h
  have := hrun.2 sid d h
  simp [initSock] at this

/-- C2 witness: a carriage-return text frame and a ping on a fresh socket:
no sink write occurs and the unbound text frame is answered with the
non-fatal unknown_session error. -/
theorem c2_prebind_text_dropped_witness :
    step ⟨5, 10⟩ (fun _ => true) (initSock 0) (Frame.text "\r") 1
        = (initSock 0, [SrvOut.send (.e "unknown_session" false)]) ∧
    ∀ sid d, SrvOut.sinkWrite sid d
        ∉ (runFrames ⟨5, 10⟩ (fun _ => true) (initSock 0)
            [(Frame.text "\r", 1), (pingFrame, 2)]).2 := by
  have hping : isBindFrame pingFrame = false := by
    simp only [pingFrame, isBindFrame, decodeControl_encodeControl (ControlMsg.p 1) (Nat.le_refl 1)]
  have h := c2_prebind_text_dropped ⟨5, 10⟩ (fun _ => true) 0
    [(Frame.text "\r", 1), (pingFrame, 2)]
    (by
      intro q hq
      rcases List.mem_cons.mp hq with h1 | h1
      · rw [h1]; rfl
      · rcases List.mem_cons.mp h1 with h2 | h2
        · rw [h2]; exact hping
        · simp at h2)
  exact ⟨h.1 (initSock 0) "\r" 1 rfl rfl, h.2.2⟩

/-- C3: on one socket, after a valid bind to s1 followed by a valid bind to
s2 (processed strictly in arrival order by the sequential run), every text
frame of the remaining stream (which contains no further binds) that
reaches a sink is written to s2's sink and never to s1's. -/
theorem c3_last_bind_wins (cfg : ServerCfg) (live : String → Bool) (st : SockState)
    (s1 s2 : String) (t1 t2 : Nat) (rest : List (Frame × Nat)) (hopen : st.closed = false)
    (hs1 : s1 ≠ "") (hs2 : s2 ≠ "") (hne : s1 ≠ s2)
    (hnb : ∀ q ∈ rest, isBindFrame q.1 = false) :
    ∀ sid d, SrvOut.sinkWrite sid d
        ∈ (runFrames cfg live st ((bindFrame s1, t1) :: (bindFrame s2, t2) :: rest)).2 →
      sid = s2 ∧ sid ≠ s1 := by
  have hall : runFrames cfg live st ((bindFrame s1, t1) :: (bindFrame s2, t2) :: rest)
      = ((runFrames cfg live { st with boundSessionId := some s2 } rest).1,
         SrvOut.send (.bok 1) :: SrvOut.send (.bok 1)
           :: (runFrames cfg live { st with boundSessionId := some s2 } rest).2) := by
    simp only [runFrames, bindFrame]
    rw [step_bind cfg live st s1 1 t1 hopen hs1 (by decide)]
    rw [step_bind cfg live { st with boundSessionId := some s1 } s2 1 t2 hopen hs2 (by decide)]
    rfl
  intro sid d h
  rw [hall] at h
  rcases List.mem_cons.mp h with h1 | h1
  · exact absurd h1 (by simp)
  rcases List.mem_cons.mp h1 with h2 | h2
  · exact absurd h2 (by simp)
  have hw := (runFrames_bound_and_writes cfg live rest
    { st with boundSessionId := some s2 } hnb).2 sid d h2
  have h3 : some s2 = some sid := hw
  injection h3 with h4
  subst h4
  exact ⟨rfl, fun hcon => hne hcon.symm⟩

/-- C3 witness: bind "s1", bind "s2", then a keystroke: the only sink write
goes to "s2". -/
theorem c3_last_bind_wins_witness :
    (runFrames ⟨5, 10⟩ (fun _ => true) (initSock 0)
        ((bindFrame "s1", 1) :: (bindFrame "s2", 2) :: [(Frame.text "x", 3)])).2
      = [SrvOut.send (.bok 1), SrvOut.send (.bok 1), SrvOut.sinkWrite "s2" "x"] ∧
    ∀ sid d, SrvOut.sinkWrite sid d
        ∈ (runFrames ⟨5, 10⟩ (fun _ => true) (initSock 0)
            ((bindFrame "s1", 1) :: (bindFrame "s2", 2) :: [(Frame.text "x", 3)])).2 →
      sid = "s2" ∧ sid ≠ "s1" := by
  constructor
  · simp only [runFrames, bindFrame]
    rw [step_bind ⟨5, 10⟩ (fun _ => true) (initSock 0) "s1" 1 1 rfl (by decide) (by decide)]
    rw [step_bind ⟨5, 10⟩ (fun _ => true) { initSock 0 with boundSessionId := some "s1" }
      "s2" 1 2 rfl (by decide) (by decide)]
    rw [step_text_bound ⟨5, 10⟩ (fun _ => true)
      { initSock 0 with boundSessionId := some "s2" } "s2" "x" 3 rfl rfl rfl]
    rfl
  · exact c3_last_bind_wins ⟨5, 10⟩ (fun _ => true) (initSock 0) "s1" "s2" 1 2
      [(Frame.text "x", 3)] rfl (by decide) (by decide) (by decide)
      (by
        intro q hq
        rcases List.mem_cons.mp hq with h1 | h1
        · rw [h1]; rfl
        · simp at h1)

/-- C5: codec round-trip: for each of the six control message shapes that
satisfies its schema (nonempty session id for bind, version at least 1 on
the versioned shapes), encoding the message as a binary control frame (tag
byte 0x01 followed by the UTF-8 bytes of its JSON serialization) and
decoding that frame yields the original message. -/
theorem c5_codec_roundtrip (m : ControlMsg) (h : shapeOK m) :
    decodeControl (encodeControl m) = Except.ok m :=
  decodeControl_encodeControl m h

/-- C5 witness: the round-trip at one concrete message of each of the six
shapes. -/
theorem c5_codec_roundtrip_witness :
    decodeControl (encodeControl (.b "abc" 1)) = Except.ok (.b "abc" 1) ∧
    decodeControl (encodeControl (.p 1)) = Except.ok (.p 1) ∧
    decodeControl (encodeControl (.po 1)) = Except.ok (.po 1) ∧
    decodeControl (encodeControl (.ok 1)) = Except.ok (.ok 1) ∧
    decodeControl (encodeControl (.bok 1)) = Except.ok (.bok 1) ∧
    decodeControl (encodeControl (.e "auth" true)) = Except.ok (.e "auth" true) :=
  ⟨c5_codec_roundtrip _ ⟨by decide, Nat.le_refl 1⟩,
   c5_codec_roundtrip _ (Nat.le_refl 1),
   c5_codec_roundtrip _ (Nat.le_refl 1),
   c5_codec_roundtrip _ (Nat.le_refl 1),
   c5_codec_roundtrip _ (Nat.le_refl 1),
   c5_codec_roundtrip _ trivial⟩

/-- C6: a binary frame that fails to decode (unknown tag byte, invalid
UTF-8, or invalid JSON) is handled by the total step function of the open
socket rather than terminating anything: it is never forwarded as a
keystroke (no sink write), it appends the arrival time to the socket's
sliding-window rate counter, and exactly when the window count reaches the
threshold the server sends a fatal rate_limited error and closes the
socket; below the threshold the socket stays open and only a non-fatal
bad_frame error is sent. -/
theorem c6_malformed_frame_ratelimit (cfg : ServerCfg) (live : String → Bool) (st : SockState)
    (bytes : List Nat) (now : Nat) (de : DecodeErr) (hopen : st.closed = false)
    (hdec : decodeControl bytes = Except.error de) :
    step cfg live st (.binary bytes) now = malformedStep cfg st now ∧
    (∀ sid d, SrvOut.sinkWrite sid d ∉ (malformedStep cfg st now).2) ∧
    (malformedStep cfg st now).1.rateEvents
        = st.rateEvents.filter (fun t0 => now ≤ t0 + cfg.rateWindow) ++ [now] ∧
    (cfg.rateLimit
          ≤ (st.rateEvents.filter (fun t0 => now ≤ t0 + cfg.rateWindow) ++ [now]).length →
      (malformedStep cfg st now).1.closed = true ∧
      (malformedStep cfg st now).2 = [SrvOut.send (.e "rate_limited" true), SrvOut.close]) ∧
    (¬ cfg.rateLimit
          ≤ (st.rateEvents.filter (fun t0 => now ≤ t0 + cfg.rateWindow) ++ [now]).length →
      (malformedStep cfg st now).1.closed = st.closed ∧
      (malformedStep cfg st now).2 = [SrvOut.send (.e "bad_frame" false)]) := by
  refine ⟨by simp [step, hopen, hdec], (malformedStep_bound cfg st now).2, ?_, ?_, ?_⟩
  · simp only [malformedStep]
    split <;> rfl
  · intro h
    simp only [malformedStep]
    rw [if_pos h]
    exact ⟨rfl, rfl⟩
  · intro h
    simp only [malformedStep]
    rw [if_neg h]
    exact ⟨rfl, rfl⟩

/-- C6 witness: the unknown tag byte 0x07 on a fresh socket with threshold
one: the frame is not forwarded, and the fatal rate_limited error closes
the socket. -/
theorem c6_malformed_frame_ratelimit_witness :
    step ⟨1, 10⟩ (fun _ => true) (initSock 0) (.binary [7]) 5
        = malformedStep ⟨1, 10⟩ (initSock 0) 5 ∧
    (∀ sid d, SrvOut.sinkWrite sid d ∉ (malformedStep ⟨1, 10⟩ (initSock 0) 5).2) ∧
    (malformedStep ⟨1, 10⟩ (initSock 0) 5).1.closed = true ∧
    (malformedStep ⟨1, 10⟩ (initSock 0) 5).2
        = [SrvOut.send (.e "rate_limited" true), SrvOut.close] := by
  have h := c6_malformed_frame_ratelimit ⟨1, 10⟩ (fun _ => true) (initSock 0) [7] 5
    DecodeErr.badTag rfl rfl
  have h4 := h.2.2.2.1 (by decide)
  exact ⟨h.1, h.2.1, h4.1, h4.2⟩

/-- C8: whenever the shared socket is unavailable (never connected, error
event, or closed), the client channel manager delivers a keystroke as one
POST to the active session's HTTP input endpoint with the identical raw
payload; and in every state each keystroke yields exactly one delivery
action carrying the payload verbatim, so no keystroke is lost in the
switch between the WebSocket and HTTP paths. -/
theorem c8_http_fallback (st : ClientState) (d : String) :
    (st.ws = WsStatus.unavailable →
      deliverKeystroke st d = Delivery.httpPost st.activeSession d) ∧
    deliveryPayload (deliverKeystroke st d) = d := by
  constructor
  · intro h
    simp [deliverKeystroke, h]
  · cases hws : st.ws <;> simp [deliverKeystroke, deliveryPayload, hws]

/-- C8 witness: with the socket unavailable and active session "abc", the
keystroke carriage return goes out as one HTTP POST with the same payload. -/
theorem c8_http_fallback_witness :
    deliverKeystroke ⟨WsStatus.unavailable, "abc"⟩ "\r" = Delivery.httpPost "abc" "\r" ∧
    deliveryPayload (deliverKeystroke ⟨WsStatus.unavailable, "abc"⟩ "\r") = "\r" :=
  ⟨(c8_http_fallback ⟨WsStatus.unavailable, "abc"⟩ "\r").1 rfl,
   (c8_http_fallback ⟨WsStatus.unavailable, "abc"⟩ "\r").2⟩

end OpenChamber
